import Mathlib

/-!
Shallow embedding of the Keras dependency-tracking and variable-aggregation
system (container wrappers over lists / dicts / tuples, the attribute
assignment interceptor, the dependency-graph walker, and the checkpoint
consistency guard), as exercised by `keras/tests/tracking_test.py` and
`keras/tests/model_subclassing_test.py`.

The wrapper machinery itself (`tensorflow.python.training.tracking
.data_structures`, `util.list_objects`, the pre-save validation inside
`save_weights`) is not part of this source excerpt — only its tests are —
so the definitions below are modelled from the specification (an explicit
arena of objects addressed by integer ids, as the spec's design notes
prescribe), and every behaviour is cross-checked against the assertions
the tests pin down.
-/

namespace Tracking

/-- Object identity: objects live in an arena (heap) and are addressed by
stable integer ids; identity-based deduplication uses these ids. -/
abbrev ObjId := Nat

/-- A mapping key: the tests use string keys and integer keys. -/
inductive Key where
  | str (s : String)
  | int (n : Int)
deriving DecidableEq, Repr

/-- A stored value: either a plain scalar or a reference to a heap object. -/
inductive Value where
  | scalar (n : Int)
  | ref (id : ObjId)
deriving DecidableEq, Repr

/-- Modelled from the spec: the kinds of heap objects. `module` is a
Trackable with named attributes, named child edges (in first-registration
order) and directly-owned variables; `rawList` / `rawDict` / `rawTuple` are
plain (unwrapped) containers; the three wrapper variants hold a reference
to the raw container they wrap plus a structural snapshot (fingerprint),
and the mutation flags the consistency guard inspects at save time. -/
inductive Obj where
  | module (attrs : List (String × Value)) (children : List (String × ObjId))
      (vars : List (String × Int))
  | rawList (elems : List Value)
  | rawDict (entries : List (Key × Value))
  | rawTuple (elems : List Value)
  | listWrapper (raw : ObjId) (snapshot : List Value) (nonAppend : Bool)
  | dictWrapper (raw : ObjId) (snapshot : List (Key × Value))
      (nonAppend : Bool) (nonStringKey : Bool)
  | tupleWrapper (elems : List Value)
deriving DecidableEq, Repr

/-- The heap (arena): object ids index into this list. -/
abbrev Heap := List Obj

/-- Allocate a fresh object, returning the new heap and the fresh id. -/
def alloc (h : Heap) (o : Obj) : Heap × ObjId := (h ++ [o], h.length)

/-- Is the heap object at this id a Trackable (a module or a wrapper)?
Raw containers and missing ids are not Trackables. -/
def isTrackableObj : Obj → Bool
  | .module _ _ _ => true
  | .listWrapper _ _ _ => true
  | .dictWrapper _ _ _ _ => true
  | .tupleWrapper _ => true
  | _ => false

/-- Is a stored value a reference to a Trackable? -/
def isTrackableVal (h : Heap) : Value → Bool
  | .scalar _ => false
  | .ref id => match h[id]? with
    | some o => isTrackableObj o
    | none => false

/-- The trackable elements among a list of stored values, as object ids. -/
def trackableRefs (h : Heap) (vs : List Value) : List ObjId :=
  vs.filterMap fun v =>
    match v with
    | .ref id => if isTrackableVal h (.ref id) then some id else none
    | .scalar _ => none

/-- Modelled from the spec: the (ordered) child edges followed by the
dependency-graph walker. A module contributes its registered named
children; a sequence / tuple wrapper contributes its trackable elements in
order (scanning current contents — reads pass through to the raw
container); a mapping wrapper contributes the trackable values stored
under string keys, in entry order. Raw containers and missing ids have no
children. -/
def childIds (h : Heap) (id : ObjId) : List ObjId :=
  match h[id]? with
  | none => []
  | some o =>
    match o with
    | .module _ children _ => children.map Prod.snd
    | .listWrapper raw _ _ =>
        match h[raw]? with
        | some (.rawList elems) => trackableRefs h elems
        | _ => []
    | .dictWrapper raw _ _ _ =>
        match h[raw]? with
        | some (.rawDict entries) =>
            trackableRefs h (entries.filterMap fun e : Key × Value =>
              match e.1 with
              | .str _ => some e.2
              | .int _ => none)
        | _ => []
    | .tupleWrapper elems => trackableRefs h elems
    | _ => []

/-- The ids of heap objects not yet visited — the primary termination
measure of the walker. -/
def unvisitedCount (h : Heap) (visited : List ObjId) : Nat :=
  ((List.range h.length).filter (fun i => ¬ i ∈ visited)).length

/-- Modelled from the spec: breadth-first traversal with an
identity-based visited set. Visits the queue head if unseen, enqueueing
its children; accumulates visited ids in first-visit order (the
accumulator is kept reversed). -/
def bfsAux (h : Heap) (queue : List ObjId) (visited : List ObjId) :
    List ObjId :=
  match queue with
  | [] => visited.reverse
  | id :: rest =>
    if hv : id ∈ visited then bfsAux h rest visited
    else if hh : id < h.length then
      bfsAux h (rest ++ childIds h id) (id :: visited)
    else
      bfsAux h rest (id :: visited)
termination_by (unvisitedCount h visited, queue.length)
decreasing_by
  · apply Prod.Lex.right
    simp
  · apply Prod.Lex.left
    unfold unvisitedCount
    have hsub : List.Sublist
        ((List.range h.length).filter (fun i => decide (¬ i ∈ id :: visited)))
        (((List.range h.length).filter (fun i => decide (¬ i ∈ visited))).filter
          (fun i => decide (¬ i = id))) := by
      rw [List.filter_filter]
      apply List.monotone_filter_right
      intro a ha
      simp only [List.mem_cons, not_or, decide_eq_true_eq] at ha
      simp only [Bool.and_eq_true, decide_eq_true_eq]
      exact ⟨ha.1, ha.2⟩
    apply Nat.lt_of_le_of_lt (List.Sublist.length_le hsub)
    apply List.length_filter_lt_length_iff_exists.mpr
    refine ⟨id, ?_, by simp⟩
    simp only [List.mem_filter, List.mem_range, decide_eq_true_eq]
    exact ⟨hh, hv⟩
  · have heq : unvisitedCount h (id :: visited) = unvisitedCount h visited := by
      unfold unvisitedCount
      congr 1
      apply List.filter_congr
      intro a ha
      simp only [List.mem_range] at ha
      simp only [List.mem_cons, not_or, decide_eq_decide]
      have : a ≠ id :=
        Nat.ne_of_lt (Nat.lt_of_lt_of_le ha (Nat.le_of_not_lt hh))
      tauto
    rw [heq]
    apply Prod.Lex.right
    simp

/-- `list_objects`: the deterministic, deduplicated, cycle-safe list of
all Trackables reachable from a root, in first-visit order. -/
def list_objects (h : Heap) (root : ObjId) : List ObjId :=
  bfsAux h [root] []

/-- Association lookup (first matching key), mirroring Python dict access. -/
def alookup {α β : Type} [DecidableEq α] (k : α) : List (α × β) → Option β
  | [] => none
  | p :: rest => if p.1 = k then some p.2 else alookup k rest

/-- Association update: an existing key keeps its original position but
takes the newest value; a new key is appended (Python dict insertion
order, and the spec's rule that overwritten names retain their original
position in the ordered child list). -/
def aset {α β : Type} [DecidableEq α] (l : List (α × β)) (k : α) (v : β) :
    List (α × β) :=
  if (alookup k l).isSome then
    l.map (fun p => if p.1 = k then (k, v) else p)
  else l ++ [(k, v)]

/-- Association delete. -/
def adel {α β : Type} [DecidableEq α] (l : List (α × β)) (k : α) :
    List (α × β) :=
  l.filter (fun p => ¬ p.1 = k)

/-- Replace the object stored at an id (no-op when the id is absent). -/
def updateObj (h : Heap) (id : ObjId) (f : Obj → Obj) : Heap :=
  match h[id]? with
  | some o => h.set id (f o)
  | none => h

/-- The attribute table of a module. -/
def getAttr (h : Heap) (id : ObjId) (name : String) : Option Value :=
  match h[id]? with
  | some (.module attrs _ _) => alookup name attrs
  | _ => none

/-- `list_children` / `_trackable_children`: the registered named child
edges of a Trackable, in first-registration order. -/
def list_children (h : Heap) (id : ObjId) : List (String × ObjId) :=
  match h[id]? with
  | some (.module _ children _) => children
  | _ => []

/-- Current elements of a raw list object. -/
def rawListElems (h : Heap) (rid : ObjId) : List Value :=
  match h[rid]? with
  | some (.rawList es) => es
  | _ => []

/-- Current entries of a raw dict object. -/
def rawDictEntries (h : Heap) (rid : ObjId) : List (Key × Value) :=
  match h[rid]? with
  | some (.rawDict es) => es
  | _ => []

/-- A value being assigned: plain, or wrapped in the `NoDependency`
opt-out marker. -/
inductive Assign where
  | plain (v : Value)
  | noDep (v : Value)

/-- Modelled from the spec: the `track_child` eligibility check. A
reference to a raw container is wrapped (list wrapper / dict wrapper with
a snapshot of the current contents, or an immutable tuple wrapper); a
reference to an existing Trackable is kept as-is and marked eligible;
scalars and dangling references are stored as plain values. Returns the
new heap, the value to store, and whether a child edge is registered. -/
def wrapValue (h : Heap) (v : Value) : Heap × Value × Bool :=
  match v with
  | .scalar n => (h, .scalar n, false)
  | .ref id =>
    match h[id]? with
    | some (.rawList elems) =>
        let p := alloc h (.listWrapper id elems false)
        (p.1, .ref p.2, true)
    | some (.rawDict entries) =>
        let p := alloc h (.dictWrapper id entries false false)
        (p.1, .ref p.2, true)
    | some (.rawTuple elems) =>
        let p := alloc h (.tupleWrapper elems)
        (p.1, .ref p.2, true)
    | some o => (h, .ref id, isTrackableObj o)
    | none => (h, .ref id, false)

/-- Store an attribute value on a module (association update). -/
def storeAttr : Obj → String → Value → Obj
  | .module attrs children vars, name, v => .module (aset attrs name v) children vars
  | o, _, _ => o

/-- Register (or replace, position preserved) a named child edge. -/
def registerChild : Obj → String → ObjId → Obj
  | .module attrs children vars, name, c => .module attrs (aset children name c) vars
  | o, _, _ => o

/-- Modelled from the spec: the attribute-assignment interceptor. A
`NoDependency`-marked value is stored as-is (identity preserved) with no
edge; otherwise the value runs the `track_child` eligibility check, the
(possibly wrapped) result is stored as the attribute, and an edge to it
is registered when it is trackable. -/
def setattr (h : Heap) (owner : ObjId) (name : String) (a : Assign) : Heap :=
  match a with
  | .noDep v => updateObj h owner (fun o => storeAttr o name v)
  | .plain v =>
    let r := wrapValue h v
    let h2 := updateObj r.1 owner (fun o => storeAttr o name r.2.1)
    if r.2.2 then
      match r.2.1 with
      | .ref c => updateObj h2 owner (fun o => registerChild o name c)
      | .scalar _ => h2
    else h2

/-- Modelled from the spec: the `no_automatic_dependency_tracking`
per-construction opt-out mode — every assignment stores the raw value and
skips tracking entirely, regardless of type. -/
def setattrUntracked (h : Heap) (owner : ObjId) (name : String) (v : Value) :
    Heap :=
  updateObj h owner (fun o => storeAttr o name v)

/-- `tf.__internal__.tracking.wrap`: wrap a raw container directly,
snapshotting its current structure. -/
def wrap (h : Heap) (rawId : ObjId) : Heap × ObjId :=
  match h[rawId]? with
  | some (.rawList elems) => alloc h (.listWrapper rawId elems false)
  | some (.rawDict entries) => alloc h (.dictWrapper rawId entries false false)
  | some (.rawTuple elems) => alloc h (.tupleWrapper elems)
  | _ => (h, rawId)

/-- Read a key through a dict wrapper (reads pass through to the raw
underlying container). -/
def dictGet (h : Heap) (wid : ObjId) (k : Key) : Option Value :=
  match h[wid]? with
  | some (.dictWrapper raw _ _ _) => alookup k (rawDictEntries h raw)
  | _ => none

/-- Read an index through a list wrapper. -/
def listGet (h : Heap) (wid : ObjId) (i : Nat) : Option Value :=
  match h[wid]? with
  | some (.listWrapper raw _ _) => (rawListElems h raw)[i]?
  | _ => none

/-- Modelled from the spec: key assignment through a mapping wrapper.
Any modification is allowed at assignment time; the wrapper updates the
raw container and its snapshot atomically. A `NoDependency` value is
stored unwrapped. A plain value under a string key runs the eligibility
check and is stored (wrapped if it was a raw container). A plain
trackable value under a non-string key merely marks the wrapper, so the
failure is deferred to save-validation time. Overwriting an existing key
(tracked or not) sets no flag. -/
def dictSetItem (h : Heap) (wid : ObjId) (k : Key) (a : Assign) : Heap :=
  match h[wid]? with
  | some (.dictWrapper raw snap na nsk) =>
    match a with
    | .noDep v =>
        let h1 := updateObj h raw (fun o => match o with
          | .rawDict es => .rawDict (aset es k v)
          | o => o)
        updateObj h1 wid (fun _ => .dictWrapper raw (aset snap k v) na nsk)
    | .plain v =>
        let r := wrapValue h v
        let nsk2 := match k with
          | .str _ => nsk
          | .int _ => nsk || r.2.2
        let h2 := updateObj r.1 raw (fun o => match o with
          | .rawDict es => .rawDict (aset es k r.2.1)
          | o => o)
        updateObj h2 wid (fun _ => .dictWrapper raw (aset snap k r.2.1) na nsk2)
  | _ => h

/-- Modelled from the spec: key deletion (`del` / `pop`) through a
mapping wrapper. Deleting a key whose current value is tracked marks the
wrapper so that the next save is blocked; deleting an untracked value is
permitted freely. Raw container and snapshot are updated atomically. -/
def dictDelItem (h : Heap) (wid : ObjId) (k : Key) : Heap :=
  match h[wid]? with
  | some (.dictWrapper raw snap na nsk) =>
    let na2 := na || (match alookup k (rawDictEntries h raw) with
      | some v => isTrackableVal h v
      | none => false)
    let h1 := updateObj h raw (fun o => match o with
      | .rawDict es => .rawDict (adel es k)
      | o => o)
    updateObj h1 wid (fun _ => .dictWrapper raw (adel snap k) na2 nsk)
  | _ => h

/-- Modelled from the spec: append through a list wrapper — the element
runs the eligibility check, then raw contents and snapshot grow
atomically. -/
def listAppend (h : Heap) (wid : ObjId) (a : Assign) : Heap :=
  match h[wid]? with
  | some (.listWrapper raw snap na) =>
    let r := match a with
      | .noDep v => (h, v)
      | .plain v => let r := wrapValue h v; (r.1, r.2.1)
    let h2 := updateObj r.1 raw (fun o => match o with
      | .rawList es => .rawList (es ++ [r.2])
      | o => o)
    updateObj h2 wid (fun _ => .listWrapper raw (snap ++ [r.2]) na)
  | _ => h

/-- Extend / in-place concatenation (`extend`, `+=`) through a list
wrapper: repeated append. -/
def listExtend (h : Heap) (wid : ObjId) (vs : List Value) : Heap :=
  vs.foldl (fun h v => listAppend h wid (.plain v)) h

/-- Modelled from the spec: insertion at a position through a list
wrapper. Inserting a Trackable at a position a checkpoint may already
reference marks the wrapper as having had a list element replaced, which
blocks the next save. -/
def listInsert (h : Heap) (wid : ObjId) (idx : Nat) (v : Value) : Heap :=
  match h[wid]? with
  | some (.listWrapper raw snap na) =>
    let na2 := na || isTrackableVal h v
    let h1 := updateObj h raw (fun o => match o with
      | .rawList es => .rawList (es.take idx ++ [v] ++ es.drop idx)
      | o => o)
    updateObj h1 wid (fun _ =>
      .listWrapper raw (snap.take idx ++ [v] ++ snap.drop idx) na2)
  | _ => h

/-- Mutation of a raw dict through a retained alias, bypassing any
wrapper: the raw contents change, no snapshot is updated. -/
def rawDictSet (h : Heap) (rid : ObjId) (k : Key) (v : Value) : Heap :=
  updateObj h rid (fun o => match o with
    | .rawDict es => .rawDict (aset es k v)
    | o => o)

/-- Mutation of a raw list through a retained alias, bypassing any
wrapper. -/
def rawListAppendExternal (h : Heap) (rid : ObjId) (v : Value) : Heap :=
  updateObj h rid (fun o => match o with
    | .rawList es => .rawList (es ++ [v])
    | o => o)

/-- The flattened `layers` listing of a wrapper: contained Trackables of
the model/layer capability, recursing through nested wrappers. -/
def layersOf (h : Heap) : Nat → ObjId → List ObjId
  | 0, _ => []
  | fuel+1, id =>
    match h[id]? with
    | some (.module _ _ _) => [id]
    | some (.listWrapper _ _ _) => ((childIds h id).map (layersOf h fuel)).flatten
    | some (.dictWrapper _ _ _ _) => ((childIds h id).map (layersOf h fuel)).flatten
    | some (.tupleWrapper _) => ((childIds h id).map (layersOf h fuel)).flatten
    | _ => []

/-- `wrapper.layers` — flatten the wrapper's trackable contents. -/
def layers (h : Heap) (wid : ObjId) : List ObjId :=
  ((childIds h wid).map (layersOf h h.length)).flatten

/-- The `units` attribute of a Dense layer, as stored on its module. -/
def unitsOf (h : Heap) (id : ObjId) : Option Value := getAttr h id "units"

/-- Error classes of the taxonomy; every consistency-guard failure is
ValueError-class. -/
inductive ErrClass where
  | valueError
deriving DecidableEq, Repr

/-- Modelled from the spec: the checkpoint consistency guard's error
taxonomy — structural mutation detected by fingerprint mismatch, a
non-append mutation that discarded a tracked member, an incompatible
list-element replacement, and a non-string key carrying a trackable. -/
inductive SaveError where
  | structuralMutation
  | unableToSave
  | listReplaced
  | nonStringKey
deriving DecidableEq, Repr

/-- All save-time guard errors are ValueError-class. -/
def SaveError.errClass : SaveError → ErrClass := fun _ => .valueError

/-- The user-visible message of each guard error. -/
def SaveError.message : SaveError → String
  | .structuralMutation =>
      "Unable to save the object: the wrapped container was modified outside the wrapper, which breaks restoration on object creation."
  | .unableToSave =>
      "Unable to save, because the container includes members that were deleted or are no longer being tracked, which breaks restoration."
  | .listReplaced =>
      "Unable to save the object: A list element was replaced (or a new element inserted at its position), deleted, or moved, which breaks restoration."
  | .nonStringKey =>
      "Unable to save the object: the dictionary contains a non-string key which maps to a trackable value, and only string keys may carry tracked values."

/-- `phrase` occurs inside `msg`. -/
def msgContains (msg phrase : String) : Prop :=
  phrase.data <:+: msg.data

instance (msg phrase : String) : Decidable (msgContains msg phrase) := by
  unfold msgContains
  infer_instance

/-- Modelled from the spec: the per-wrapper consistency check run before
a save — first compare the raw container's current structural fingerprint
against the snapshot (external mutation), then the non-append-mutation
flag, then (for mappings) the non-string-key flag. -/
def validateWrapper (h : Heap) (id : ObjId) : Option SaveError :=
  match h[id]? with
  | some (.listWrapper raw snap na) =>
      if ¬ rawListElems h raw = snap then some .structuralMutation
      else if na then some .listReplaced
      else none
  | some (.dictWrapper raw snap na nsk) =>
      if ¬ rawDictEntries h raw = snap then some .structuralMutation
      else if na then some .unableToSave
      else if nsk then some .nonStringKey
      else none
  | _ => none

/-- A checkpoint: variable values keyed by (owner id, variable name) —
the traversal-derived path names of the spec, with the owning object's
arena id standing in for its attribute path. -/
abbrev Ckpt := List (ObjId × String × Int)

/-- The variables field of an object (empty for non-modules). -/
def objVars : Obj → List (String × Int)
  | .module _ _ vars => vars
  | _ => []

/-- The variables directly owned by the object at an id. -/
def varsOf (h : Heap) (id : ObjId) : List (String × Int) :=
  match h[id]? with
  | some o => objVars o
  | none => []

/-- The checkpoint entries contributed by one object. -/
def ckptEntries (h : Heap) (id : ObjId) : Ckpt :=
  (varsOf h id).map (fun p => (id, p.1, p.2))

/-- Modelled from the spec: `save_weights` — walk `list_objects` from the
root, run the consistency check on every reachable wrapper; on the first
failure abort with the error and write nothing; on success enumerate
every reachable object's variables, in traversal order, into the
checkpoint. -/
def save_weights (h : Heap) (root : ObjId) : Except SaveError Ckpt :=
  match (list_objects h root).findSome? (validateWrapper h) with
  | some e => .error e
  | none => .ok (((list_objects h root).map (ckptEntries h)).flatten)

/-- Overwrite the value of one named variable of one object (all
occurrences of the name, which are unique in well-formed graphs). -/
def setVarsList (vs : List (String × Int)) (n : String) (x : Int) :
    List (String × Int) :=
  vs.map (fun p => if p.1 = n then (n, x) else p)

def setVar (h : Heap) (id : ObjId) (n : String) (x : Int) : Heap :=
  updateObj h id (fun o => match o with
    | .module attrs children vars => .module attrs children (setVarsList vars n x)
    | o => o)

/-- Read one named variable of one object. -/
def getVar (h : Heap) (id : ObjId) (n : String) : Option Int :=
  alookup n (varsOf h id)

/-- Modelled from the spec: `load_weights` — assign every checkpointed
value back into the variable its path names. -/
def load_weights (h : Heap) (ckpt : Ckpt) : Heap :=
  ckpt.foldl (fun h e => setVar h e.1 e.2.1 e.2.2) h

/-- Reassign every variable in the heap (the "mutate all variables
between save and restore" step): variable names and graph structure are
untouched, values are replaced arbitrarily. -/
def objMutVars (f : String → Int) : Obj → Obj
  | .module attrs children vars =>
      .module attrs children (vars.map (fun p => (p.1, f p.1)))
  | o => o

def mutateVarsAux (g : ObjId → String → Int) : Nat → Heap → Heap
  | _, [] => []
  | i, o :: rest => objMutVars (g i) o :: mutateVarsAux g (i+1) rest

def mutateVars (g : ObjId → String → Int) (h : Heap) : Heap :=
  mutateVarsAux g 0 h

/-- Reachability along child edges — the dependency graph rooted at an
object, as an inductive closure. -/
inductive Reaches (h : Heap) (root : ObjId) : ObjId → Prop where
  | refl : Reaches h root root
  | step {y z : ObjId} : Reaches h root y → z ∈ childIds h y → Reaches h root z

/-- Well-formedness of variable naming: each object's directly-owned
variables have pairwise-distinct names (true of every real layer, whose
variable names are attribute-derived). -/
def VarsNodup (h : Heap) : Prop :=
  ∀ i : ObjId, ((varsOf h i).map Prod.fst).Nodup

/-- A Dense layer with the given `units`, as a module. -/
def mkDense (units : Int) : Obj := .module [("units", .scalar units)] [] []

/-- The current contents of a sequence/tuple wrapper (reads pass through
to the raw container) — what iterating or `+`-concatenating the wrapper
yields. -/
def wrapperContents (h : Heap) (wid : ObjId) : List Value :=
  match h[wid]? with
  | some (.listWrapper raw _ _) => rawListElems h raw
  | some (.tupleWrapper es) => es
  | _ => []

/-- The view of an object that the graph walker consults: child edges of
a module, contents of raw containers, the raw-container reference of a
mutable wrapper, the elements of a tuple wrapper. Two heaps pointwise
equal under this view produce identical traversals. -/
def travEq : Option Obj → Option Obj → Prop
  | some (.module _ c _), some (.module _ c' _) => c = c'
  | some (.rawList es), some (.rawList es') => es = es'
  | some (.rawDict es), some (.rawDict es') => es = es'
  | some (.rawTuple es), some (.rawTuple es') => es = es'
  | some (.listWrapper r _ _), some (.listWrapper r' _ _) => r = r'
  | some (.dictWrapper r _ _ _), some (.dictWrapper r' _ _ _) => r = r'
  | some (.tupleWrapper es), some (.tupleWrapper es') => es = es'
  | none, none => True
  | _, _ => False

/-! ### Concrete scenario heaps, mirroring the tests -/

/-- `MappingTests.testExternalModificationNoSave`: `model.d =
external_reference` wraps the raw dict (id 1) into a wrapper (id 2); then
`external_reference["a"] = []` mutates the raw dict through the retained
alias, bypassing the wrapper. Ids: 0 model, 1 raw dict, 2 dict wrapper,
3 the raw list assigned under "a". -/
def extModHeap : Heap :=
  let p1 := alloc [] (.module [] [] [])
  let p2 := alloc p1.1 (.rawDict [])
  let h3 := setattr p2.1 p1.2 "d" (.plain (.ref p2.2))
  let p4 := alloc h3 (.rawList [])
  rawDictSet p4.1 p2.2 (.str "a") (.ref p4.2)

/-- `MappingTests.testPopNoSave`: `model.d = {}`; `model.d["a"] = []`
(tracked, wrapped at id 4); `model.d.pop("a")`. Ids: 0 model, 1 raw dict,
2 dict wrapper, 3 raw list, 4 list wrapper. -/
def popHeap : Heap :=
  let p1 := alloc [] (.module [] [] [])
  let p2 := alloc p1.1 (.rawDict [])
  let h3 := setattr p2.1 p1.2 "d" (.plain (.ref p2.2))
  let p4 := alloc h3 (.rawList [])
  let h5 := dictSetItem p4.1 2 (.str "a") (.plain (.ref p4.2))
  dictDelItem h5 2 (.str "a")

/-- `MappingTests.testOverwriteCanStillSave`: `model.d = {}`;
`model.d["a"] = {}` twice — a same-key replacement of a tracked value
through the wrapper's own interface. Ids: 0 model, 1 raw dict d, 2 dict
wrapper, 3/4 first `{}` raw+wrapper, 5/6 second `{}` raw+wrapper. -/
def overwriteHeap : Heap :=
  let p1 := alloc [] (.module [] [] [])
  let p2 := alloc p1.1 (.rawDict [])
  let h3 := setattr p2.1 p1.2 "d" (.plain (.ref p2.2))
  let p4 := alloc h3 (.rawDict [])
  let h5 := dictSetItem p4.1 2 (.str "a") (.plain (.ref p4.2))
  let p6 := alloc h5 (.rawDict [])
  dictSetItem p6.1 2 (.str "a") (.plain (.ref p6.2))

/-- The contrast case for the same-key overwrite: popping the tracked key
"a" from `overwriteHeap` instead (a delete of a tracked value). -/
def overwritePopHeap : Heap := dictDelItem overwriteHeap 2 (.str "a")

/-- `HasList.__init__`: wrap `[Dense(3)]`, attach as `layer_list`, then
`append Dense(4)`, `extend [Dense(5), Dense(6)]`, `+= [Dense(7),
Dense(8)]`, `+= wrap([Dense(9)]) + wrap([Dense(10)])`,
`extend wrap([Dense(11)] + [Dense(12)])`; finally attach
`layers_with_updates = wrap([BatchNormalization()])`. Dense ids:
1,4,5,6,7,8,9,12,15,16 with units 3..12; `layer_list` wrapper id 3;
`layers_with_updates` wrapper id 21. -/
def hasListHeap : Heap :=
  let p0 := alloc [] (.module [] [] [])
  let p1 := alloc p0.1 (mkDense 3)
  let p2 := alloc p1.1 (.rawList [.ref p1.2])
  let p3 := wrap p2.1 p2.2
  let h := setattr p3.1 p0.2 "layer_list" (.plain (.ref p3.2))
  let p4 := alloc h (mkDense 4)
  let h := listAppend p4.1 3 (.plain (.ref p4.2))
  let p5 := alloc h (mkDense 5)
  let p6 := alloc p5.1 (mkDense 6)
  let h := listExtend p6.1 3 [.ref p5.2, .ref p6.2]
  let p7 := alloc h (mkDense 7)
  let p8 := alloc p7.1 (mkDense 8)
  let h := listExtend p8.1 3 [.ref p7.2, .ref p8.2]
  let p9 := alloc h (mkDense 9)
  let p10 := alloc p9.1 (.rawList [.ref p9.2])
  let p11 := wrap p10.1 p10.2
  let p12 := alloc p11.1 (mkDense 10)
  let p13 := alloc p12.1 (.rawList [.ref p12.2])
  let p14 := wrap p13.1 p13.2
  let h := listExtend p14.1 3 (wrapperContents p14.1 p11.2 ++ wrapperContents p14.1 p14.2)
  let p15 := alloc h (mkDense 11)
  let p16 := alloc p15.1 (mkDense 12)
  let p17 := alloc p16.1 (.rawList [.ref p15.2, .ref p16.2])
  let p18 := wrap p17.1 p17.2
  let h := listExtend p18.1 3 (wrapperContents p18.1 p18.2)
  let p19 := alloc h (.module [] [] [])
  let p20 := alloc p19.1 (.rawList [.ref p19.2])
  let p21 := wrap p20.1 p20.2
  setattr p21.1 p0.2 "layers_with_updates" (.plain (.ref p21.2))

/-- `MappingTests.testNonStringKeyNotTrackableValue`: `a.d = {}`;
`a.d["a"] = [3]` (tracked and wrapped, id 4); `a.d[1] =
NoDependency([3])` (raw list id 5, stored unwrapped under a non-string
key). Ids: 0 a, 1 raw dict, 2 dict wrapper, 3 raw list `[3]`, 4 list
wrapper, 5 no-dependency raw list. -/
def nonStringKeyOkHeap : Heap :=
  let p0 := alloc [] (.module [] [] [])
  let p1 := alloc p0.1 (.rawDict [])
  let h := setattr p1.1 p0.2 "d" (.plain (.ref p1.2))
  let p3 := alloc h (.rawList [.scalar 3])
  let h := dictSetItem p3.1 2 (.str "a") (.plain (.ref p3.2))
  let p5 := alloc h (.rawList [.scalar 3])
  dictSetItem p5.1 2 (.int 1) (.noDep (.ref p5.2))

/-- `MappingTests.testDictWrapperBadKeys`: `a.d = {}`; `a.d[1] =
tracking.wrap([])` (a trackable under an integer key); `model.sub = a`.
Ids: 0 model, 1 a, 2 raw dict, 3 dict wrapper, 4 raw list, 5 list
wrapper. -/
def badKeysHeap : Heap :=
  let p0 := alloc [] (.module [] [] [])
  let p1 := alloc p0.1 (.module [] [] [])
  let p2 := alloc p1.1 (.rawDict [])
  let h := setattr p2.1 p1.2 "d" (.plain (.ref p2.2))
  let p4 := alloc h (.rawList [])
  let p5 := wrap p4.1 p4.2
  let h := dictSetItem p5.1 3 (.int 1) (.plain (.ref p5.2))
  setattr h p0.2 "sub" (.plain (.ref p1.2))

/-- `MappingTests.testNonAppendNotTrackable`, first half: `a.d = {}`;
`a.d["a"] = [3]`; `a.d[1] = 3`; `a.d[1] = 2` (overwrite of an untracked
value through the wrapper). Ids: 0 a, 1 raw dict, 2 dict wrapper, 3 raw
list `[3]`, 4 list wrapper. -/
def nonAppendHeapMid : Heap :=
  let p0 := alloc [] (.module [] [] [])
  let p1 := alloc p0.1 (.rawDict [])
  let h := setattr p1.1 p0.2 "d" (.plain (.ref p1.2))
  let p3 := alloc h (.rawList [.scalar 3])
  let h := dictSetItem p3.1 2 (.str "a") (.plain (.ref p3.2))
  let h := dictSetItem h 2 (.int 1) (.plain (.scalar 3))
  dictSetItem h 2 (.int 1) (.plain (.scalar 2))

/-- Continuation of `testNonAppendNotTrackable`: `del a.d[1]`; `a.d[2] =
NoDependency(Module())`; `a.d[2] = NoDependency(second)`. Ids: 5 first
no-dependency module, 6 `second`. -/
def nonAppendHeap : Heap :=
  let h := dictDelItem nonAppendHeapMid 2 (.int 1)
  let p5 := alloc h (.module [] [] [])
  let h := dictSetItem p5.1 2 (.int 2) (.noDep (.ref p5.2))
  let p6 := alloc h (.module [] [] [])
  dictSetItem p6.1 2 (.int 2) (.noDep (.ref p6.2))

/-- `InterfaceTests.testNoDepList`, first checkpoint: `a.l1 =
NoDependency([])` — stored as a plain (raw) list. Ids: 0 a, 1 raw
list l1. -/
def noDepListHeap1 : Heap :=
  let p0 := alloc [] (.module [] [] [])
  let p1 := alloc p0.1 (.rawList [])
  setattr p1.1 p0.2 "l1" (.noDep (.ref p1.2))

/-- `InterfaceTests.testNoDepList`, after the first save: `a.l2 = []`
(wrapped, id 3) then `a.l2.insert(1, tf.Module())` — a Trackable inserted
at a position inconsistent with the saved structure. Ids: 2 raw list l2,
3 list wrapper, 4 the inserted module. -/
def noDepListHeap2 : Heap :=
  let h := noDepListHeap1
  let p2 := alloc h (.rawList [])
  let h := setattr p2.1 0 "l2" (.plain (.ref p2.2))
  let p4 := alloc h (.module [] [] [])
  listInsert p4.1 3 1 (.ref p4.2)

/-- `InterfaceTests.testNoDependency`: `root.hasdep = Module()`;
`root.nodep = NoDependency(Module())`; plus a `NoDependency([])` plain
list. Ids: 0 root, 1 hasdep, 2 nodep, 3 raw list. -/
def noDepHeap : Heap :=
  let p0 := alloc [] (.module [] [] [])
  let p1 := alloc p0.1 (.module [] [] [])
  let h := setattr p1.1 p0.2 "hasdep" (.plain (.ref p1.2))
  let p2 := alloc h (.module [] [] [])
  let h := setattr p2.1 p0.2 "nodep" (.noDep (.ref p2.2))
  let p3 := alloc h (.rawList [])
  setattr p3.1 p0.2 "alist" (.noDep (.ref p3.2))

/-- `NoDependencyModel` with `no_automatic_dependency_tracking` on
`__init__`: `self.a = []`; `self.b = Module()` — both assignments skip
tracking entirely. Ids: 0 model, 1 raw list a, 2 module b. -/
def noAutoTrackHeap : Heap :=
  let p0 := alloc [] (.module [] [] [])
  let p1 := alloc p0.1 (.rawList [])
  let h := setattrUntracked p1.1 p0.2 "a" (.ref p1.2)
  let p2 := alloc h (.module [] [] [])
  setattrUntracked p2.1 p0.2 "b" (.ref p2.2)

/-- A round-trip witness graph in the style of `HasMapping`: a model with
a mapping-wrapped layer owning a `kernel` and a `bias` variable. Ids:
0 model, 1 raw dict, 2 dict wrapper, 3 the output Dense layer. -/
def rtHeap : Heap :=
  let p0 := alloc [] (.module [] [] [])
  let p1 := alloc p0.1 (.rawDict [])
  let h := setattr p1.1 p0.2 "layer_dict" (.plain (.ref p1.2))
  let p3 := alloc h (.module [("units", .scalar 7)] [] [("kernel", 5), ("bias", 1)])
  dictSetItem p3.1 2 (.str "output") (.plain (.ref p3.2))

/-! ### Properties of the dependency-graph walker -/

/-- An id out of the heap's range has no children. -/
theorem childIds_of_ge (h : Heap) (id : ObjId) (hge : h.length ≤ id) :
    childIds h id = [] := by
  unfold childIds
  have : h[id]? = none := getElem?_neg h id (by omega)
  rw [this]

theorem bfsAux_nodup (h : Heap) (q v : List ObjId) (hv : v.Nodup) :
    (bfsAux h q v).Nodup := by
  induction q, v using bfsAux.induct h with
  | case1 v =>
      rw [bfsAux]
      exact List.nodup_reverse.mpr hv
  | case2 v id rest hmem ih =>
      rw [bfsAux]
      simp only [hmem, dite_true]
      exact ih hv
  | case3 v id rest hmem hlt ih =>
      rw [bfsAux]
      simp only [hmem, hlt, dite_true, dite_false]
      exact ih (List.nodup_cons.mpr ⟨hmem, hv⟩)
  | case4 v id rest hmem hlt ih =>
      rw [bfsAux]
      simp only [hmem, hlt, dite_false]
      exact ih (List.nodup_cons.mpr ⟨hmem, hv⟩)

/-- `list_objects` never repeats an object: deduplication is by object
identity. -/
theorem list_objects_nodup (h : Heap) (root : ObjId) :
    (list_objects h root).Nodup :=
  bfsAux_nodup h [root] [] List.nodup_nil

theorem bfsAux_mem_of_visited (h : Heap) (q v : List ObjId) :
    ∀ x ∈ v, x ∈ bfsAux h q v := by
  induction q, v using bfsAux.induct h with
  | case1 v =>
      intro x hx
      rw [bfsAux]
      simpa using hx
  | case2 v id rest hmem ih =>
      intro x hx
      rw [bfsAux]
      simp only [hmem, dite_true]
      exact ih x hx
  | case3 v id rest hmem hlt ih =>
      intro x hx
      rw [bfsAux]
      simp only [hmem, hlt, dite_true, dite_false]
      exact ih x (List.mem_cons_of_mem _ hx)
  | case4 v id rest hmem hlt ih =>
      intro x hx
      rw [bfsAux]
      simp only [hmem, hlt, dite_false]
      exact ih x (List.mem_cons_of_mem _ hx)

theorem bfsAux_mem_of_queue (h : Heap) (q v : List ObjId) :
    ∀ x ∈ q, x ∈ bfsAux h q v := by
  induction q, v using bfsAux.induct h with
  | case1 v =>
      intro x hx
      exact absurd hx (List.not_mem_nil x)
  | case2 v id rest hmem ih =>
      intro x hx
      rw [bfsAux]
      simp only [hmem, dite_true]
      rcases List.mem_cons.mp hx with hx | hx
      · subst hx
        exact bfsAux_mem_of_visited h rest v x hmem
      · exact ih x hx
  | case3 v id rest hmem hlt ih =>
      intro x hx
      rw [bfsAux]
      simp only [hmem, hlt, dite_true, dite_false]
      rcases List.mem_cons.mp hx with hx | hx
      · subst hx
        exact bfsAux_mem_of_visited h _ _ x (List.mem_cons_self x v)
      · exact ih x (List.mem_append_left _ hx)
  | case4 v id rest hmem hlt ih =>
      intro x hx
      rw [bfsAux]
      simp only [hmem, hlt, dite_false]
      rcases List.mem_cons.mp hx with hx | hx
      · subst hx
        exact bfsAux_mem_of_visited h _ _ x (List.mem_cons_self x v)
      · exact ih x hx

/-- The walker's result is closed under child edges, provided the
visited set's pending children are all queued (true initially, when the
visited set is empty). -/
theorem bfsAux_closed (h : Heap) (q v : List ObjId)
    (hinv : ∀ y ∈ v, ∀ c ∈ childIds h y, c ∈ q ∨ c ∈ v) :
    ∀ y ∈ bfsAux h q v, ∀ c ∈ childIds h y, c ∈ bfsAux h q v := by
  induction q, v using bfsAux.induct h with
  | case1 v =>
      intro y hy c hc
      rw [bfsAux] at hy ⊢
      rcases hinv y (List.mem_reverse.mp hy) c hc with hcq | hcv
      · exact absurd hcq (List.not_mem_nil c)
      · exact List.mem_reverse.mpr hcv
  | case2 v id rest hmem ih =>
      rw [bfsAux]
      simp only [hmem, dite_true]
      apply ih
      intro y hy c hc
      rcases hinv y hy c hc with hcq | hcv
      · rcases List.mem_cons.mp hcq with hcq | hcq
        · subst hcq
          exact Or.inr hmem
        · exact Or.inl hcq
      · exact Or.inr hcv
  | case3 v id rest hmem hlt ih =>
      rw [bfsAux]
      simp only [hmem, hlt, dite_true, dite_false]
      apply ih
      intro y hy c hc
      rcases List.mem_cons.mp hy with hy | hy
      · subst hy
        exact Or.inl (List.mem_append_right _ hc)
      · rcases hinv y hy c hc with hcq | hcv
        · rcases List.mem_cons.mp hcq with hcq | hcq
          · subst hcq
            exact Or.inr (List.mem_cons_self c v)
          · exact Or.inl (List.mem_append_left _ hcq)
        · exact Or.inr (List.mem_cons_of_mem _ hcv)
  | case4 v id rest hmem hlt ih =>
      rw [bfsAux]
      simp only [hmem, hlt, dite_false]
      apply ih
      intro y hy c hc
      rcases List.mem_cons.mp hy with hy | hy
      · subst hy
        rw [childIds_of_ge h y (Nat.le_of_not_lt hlt)] at hc
        exact absurd hc (List.not_mem_nil c)
      · rcases hinv y hy c hc with hcq | hcv
        · rcases List.mem_cons.mp hcq with hcq | hcq
          · subst hcq
            exact Or.inr (List.mem_cons_self c v)
          · exact Or.inl hcq
        · exact Or.inr (List.mem_cons_of_mem _ hcv)

/-- Completeness of the walker: everything reachable from the root along
child edges appears in `list_objects`. -/
theorem list_objects_complete (h : Heap) (root c : ObjId)
    (hr : Reaches h root c) : c ∈ list_objects h root := by
  induction hr with
  | refl =>
      exact bfsAux_mem_of_queue h [root] [] root (List.mem_cons_self root [])
  | step hy hc ih =>
      exact bfsAux_closed h [root] [] (by intro y hy; simp at hy) _ ih _ hc

theorem travEq_refl (x : Option Obj) : travEq x x := by
  match x with
  | none => trivial
  | some o => cases o <;> simp [travEq]

theorem isTrackableVal_congr (h h' : Heap)
    (ht : ∀ i : ObjId, travEq h[i]? h'[i]?) (v : Value) :
    isTrackableVal h v = isTrackableVal h' v := by
  cases v with
  | scalar n => rfl
  | ref id =>
    have hti := ht id
    cases hx : h[id]? with
    | none =>
      cases hy : h'[id]? with
      | none => simp only [isTrackableVal, hx, hy]
      | some o' =>
        rw [hx, hy] at hti
        exact absurd hti (by cases o' <;> simp [travEq])
    | some o =>
      cases hy : h'[id]? with
      | none =>
        rw [hx, hy] at hti
        exact absurd hti (by cases o <;> simp [travEq])
      | some o' =>
        rw [hx, hy] at hti
        simp only [isTrackableVal, hx, hy]
        cases o <;> cases o' <;>
          first
            | rfl
            | exact absurd hti (by simp [travEq])

theorem trackableRefs_congr (h h' : Heap)
    (ht : ∀ i : ObjId, travEq h[i]? h'[i]?) (vs : List Value) :
    trackableRefs h vs = trackableRefs h' vs := by
  unfold trackableRefs
  have hf : (fun v => match v with
      | .ref id => if isTrackableVal h (.ref id) then some id else none
      | .scalar _ => none) =
      (fun v : Value => match v with
      | .ref id => if isTrackableVal h' (.ref id) then some id else none
      | .scalar _ => none) := by
    funext v
    cases v with
    | scalar n => rfl
    | ref id =>
      show (if isTrackableVal h (.ref id) = true then some id else none) =
        (if isTrackableVal h' (.ref id) = true then some id else none)
      rw [isTrackableVal_congr h h' ht]
  rw [hf]

theorem childIds_congr (h h' : Heap)
    (ht : ∀ i : ObjId, travEq h[i]? h'[i]?) (i : ObjId) :
    childIds h i = childIds h' i := by
  have hti := ht i
  cases hx : h[i]? with
  | none =>
    cases hy : h'[i]? with
    | none => simp only [childIds, hx, hy]
    | some o' =>
      rw [hx, hy] at hti
      exact absurd hti (by cases o' <;> simp [travEq])
  | some o =>
    cases hy : h'[i]? with
    | none =>
      rw [hx, hy] at hti
      exact absurd hti (by cases o <;> simp [travEq])
    | some o' =>
      rw [hx, hy] at hti
      simp only [childIds, hx, hy]
      cases o with
      | module a c vr =>
        cases o' <;> simp only [travEq] at hti
        exact congrArg (fun l => l.map Prod.snd) hti
      | rawList es =>
        cases o' <;> simp only [travEq] at hti <;> rfl
      | rawDict es =>
        cases o' <;> simp only [travEq] at hti <;> rfl
      | rawTuple es =>
        cases o' <;> simp only [travEq] at hti <;> rfl
      | listWrapper r snap na =>
        cases o' <;> simp only [travEq] at hti
        case listWrapper r' snap' na' =>
          subst hti
          show (match h[r]? with
              | some (.rawList elems) => trackableRefs h elems
              | _ => []) =
            (match h'[r]? with
              | some (.rawList elems) => trackableRefs h' elems
              | _ => [])
          have htr := ht r
          cases hrx : h[r]? with
          | none =>
            cases hry : h'[r]? with
            | none => rfl
            | some og' =>
              rw [hrx, hry] at htr
              cases og' <;> simp only [travEq] at htr
          | some og =>
            cases hry : h'[r]? with
            | none =>
              rw [hrx, hry] at htr
              cases og <;> simp only [travEq] at htr
            | some og' =>
              rw [hrx, hry] at htr
              cases og <;> cases og' <;> simp only [travEq] at htr <;> try rfl
              case rawList.rawList es es' =>
                subst htr
                exact trackableRefs_congr h h' ht es
      | dictWrapper r snap na nsk =>
        cases o' <;> simp only [travEq] at hti
        case dictWrapper r' snap' na' nsk' =>
          subst hti
          show (match h[r]? with
              | some (.rawDict entries) =>
                  trackableRefs h (entries.filterMap fun e : Key × Value =>
                    match e.1 with
                    | .str _ => some e.2
                    | .int _ => none)
              | _ => []) =
            (match h'[r]? with
              | some (.rawDict entries) =>
                  trackableRefs h' (entries.filterMap fun e : Key × Value =>
                    match e.1 with
                    | .str _ => some e.2
                    | .int _ => none)
              | _ => [])
          have htr := ht r
          cases hrx : h[r]? with
          | none =>
            cases hry : h'[r]? with
            | none => rfl
            | some og' =>
              rw [hrx, hry] at htr
              cases og' <;> simp only [travEq] at htr
          | some og =>
            cases hry : h'[r]? with
            | none =>
              rw [hrx, hry] at htr
              cases og <;> simp only [travEq] at htr
            | some og' =>
              rw [hrx, hry] at htr
              cases og <;> cases og' <;> simp only [travEq] at htr <;> try rfl
              case rawDict.rawDict es es' =>
                subst htr
                exact trackableRefs_congr h h' ht _
      | tupleWrapper es =>
        cases o' <;> simp only [travEq] at hti
        case tupleWrapper es' =>
          subst hti
          exact trackableRefs_congr h h' ht es

theorem bfsAux_congr (h h' : Heap) (hlen : h.length = h'.length)
    (ht : ∀ i : ObjId, travEq h[i]? h'[i]?) (q v : List ObjId) :
    bfsAux h q v = bfsAux h' q v := by
  induction q, v using bfsAux.induct h with
  | case1 v => rw [bfsAux, bfsAux]
  | case2 v id rest hmem ih =>
      rw [bfsAux, bfsAux]
      simp only [hmem, dite_true]
      exact ih
  | case3 v id rest hmem hlt ih =>
      rw [bfsAux, bfsAux]
      have hlt' : id < h'.length := hlen ▸ hlt
      simp only [hmem, hlt, hlt', dite_true, dite_false]
      calc bfsAux h (rest ++ childIds h id) (id :: v)
          = bfsAux h' (rest ++ childIds h id) (id :: v) := ih
        _ = bfsAux h' (rest ++ childIds h' id) (id :: v) := by
            rw [childIds_congr h h' ht id]
  | case4 v id rest hmem hlt ih =>
      rw [bfsAux, bfsAux]
      have hlt' : ¬ id < h'.length := hlen ▸ hlt
      simp only [hmem, hlt, hlt', dite_false]
      exact ih

theorem list_objects_congr (h h' : Heap) (hlen : h.length = h'.length)
    (ht : ∀ i : ObjId, travEq h[i]? h'[i]?) (root : ObjId) :
    list_objects h root = list_objects h' root :=
  bfsAux_congr h h' hlen ht [root] []

/-! ### Heap-update lemmas -/

theorem length_updateObj (h : Heap) (o : ObjId) (f : Obj → Obj) :
    (updateObj h o f).length = h.length := by
  unfold updateObj
  cases h[o]? with
  | none => rfl
  | some ob => exact List.length_set h o (f ob)

theorem getElem?_updateObj (h : Heap) (o : ObjId) (f : Obj → Obj) (i : ObjId) :
    (updateObj h o f)[i]? = if i = o then (h[o]?).map f else h[i]? := by
  unfold updateObj
  cases hx : h[o]? with
  | none =>
    by_cases hio : i = o
    · subst hio
      simp [hx]
    · simp [hio]
  | some ob =>
    by_cases hio : i = o
    · subst hio
      have hlt : i < h.length := by
        by_contra hc
        rw [List.getElem?_eq_none (Nat.le_of_not_lt hc)] at hx
        exact Option.noConfusion hx
      simp only [if_pos rfl, Option.map_some']
      exact List.getElem?_set_eq_of_lt (f ob) hlt
    · simp only [if_neg hio]
      exact List.getElem?_set_ne (fun he => hio he.symm)

theorem travEq_storeAttr (o : Obj) (n : String) (v : Value) :
    travEq (some o) (some (storeAttr o n v)) := by
  cases o <;> simp [travEq, storeAttr]

theorem setattrNoDep_travEq (h : Heap) (ow : ObjId) (n : String) (v : Value) :
    ∀ i : ObjId, travEq h[i]? (setattr h ow n (.noDep v))[i]? := by
  intro i
  show travEq h[i]? (updateObj h ow (fun o => storeAttr o n v))[i]?
  rw [getElem?_updateObj]
  by_cases hio : i = ow
  · subst hio
    cases hx : h[i]? with
    | none => simp [travEq]
    | some o =>
      simp only [if_pos rfl, Option.map_some']
      exact travEq_storeAttr o n v

  · rw [if_neg hio]
    exact travEq_refl _

/-- Assigning under the `NoDependency` opt-out (and likewise every
assignment inside a `no_automatic_dependency_tracking` initializer)
leaves the entire dependency graph unchanged: `list_objects` from any
root is identical before and after. -/
theorem list_objects_setattrNoDep (h : Heap) (ow : ObjId) (n : String)
    (v : Value) (root : ObjId) :
    list_objects (setattr h ow n (.noDep v)) root = list_objects h root := by
  refine (list_objects_congr h _ ?_ (setattrNoDep_travEq h ow n v) root).symm
  show h.length = (updateObj h ow _).length
  exact (length_updateObj h ow _).symm

theorem list_children_setattrNoDep (h : Heap) (ow : ObjId) (n : String)
    (v : Value) (i : ObjId) :
    list_children (setattr h ow n (.noDep v)) i = list_children h i := by
  unfold list_children
  show (match (updateObj h ow (fun o => storeAttr o n v))[i]? with
      | some (.module _ children _) => children
      | _ => []) = _
  rw [getElem?_updateObj]
  by_cases hio : i = ow
  · subst hio
    cases hx : h[i]? with
    | none => simp
    | some o =>
      simp only [if_pos rfl, Option.map_some']
      cases o <;> rfl
  · rw [if_neg hio]

/-! ### Association-list lemmas -/

theorem alookup_map_set {α β : Type} [DecidableEq α] (k : α) (v : β) :
    ∀ l : List (α × β), (alookup k l).isSome →
      alookup k (l.map (fun p => if p.1 = k then (k, v) else p)) = some v := by
  intro l
  induction l with
  | nil => intro hs; simp [alookup] at hs
  | cons p rest ih =>
    intro hs
    by_cases hp : p.1 = k
    · simp [alookup, hp]
    · rw [alookup] at hs
      rw [if_neg hp] at hs
      simp only [List.map_cons, if_neg hp]
      rw [alookup, if_neg hp]
      exact ih hs

theorem alookup_append_right {α β : Type} [DecidableEq α] (k : α)
    (l l2 : List (α × β)) (hn : alookup k l = none) :
    alookup k (l ++ l2) = alookup k l2 := by
  induction l with
  | nil => rfl
  | cons p rest ih =>
    rw [alookup] at hn
    by_cases hp : p.1 = k
    · rw [if_pos hp] at hn
      exact Option.noConfusion hn
    · rw [if_neg hp] at hn
      rw [List.cons_append, alookup, if_neg hp]
      exact ih hn

theorem alookup_aset_self {α β : Type} [DecidableEq α] (l : List (α × β))
    (k : α) (v : β) : alookup k (aset l k v) = some v := by
  unfold aset
  cases hs : (alookup k l).isSome with
  | true =>
    simp only [if_pos rfl]
    exact alookup_map_set k v l hs
  | false =>
    simp only [Bool.false_eq_true, if_false]
    rw [alookup_append_right k l _ (Option.not_isSome_iff_eq_none.mp (by simp [hs]))]
    simp [alookup]

/-- `NoDependency` stores the original value itself: identity is
preserved, no wrapper is interposed. -/
theorem getAttr_setattrNoDep (h : Heap) (ow : ObjId) (n : String) (v : Value)
    (attrs : List (String × Value)) (ch : List (String × ObjId))
    (vars : List (String × Int))
    (ho : h[ow]? = some (.module attrs ch vars)) :
    getAttr (setattr h ow n (.noDep v)) ow n = some v := by
  unfold getAttr
  show (match (updateObj h ow (fun o => storeAttr o n v))[ow]? with
      | some (.module attrs _ _) => alookup n attrs
      | _ => none) = some v
  rw [getElem?_updateObj, if_pos rfl, ho]
  simp only [Option.map_some']
  exact alookup_aset_self attrs n v

/-! ### Save / restore round-trip lemmas -/

theorem alookup_setVarsList_self (vs : List (String × Int)) (n : String)
    (x : Int) (hs : (alookup n vs).isSome) :
    alookup n (setVarsList vs n x) = some x :=
  alookup_map_set n x vs hs

theorem alookup_setVarsList_ne (vs : List (String × Int)) (m n : String)
    (x : Int) (hne : m ≠ n) :
    alookup m (setVarsList vs n x) = alookup m vs := by
  induction vs with
  | nil => rfl
  | cons p rest ih =>
    show alookup m ((if p.1 = n then (n, x) else p) :: setVarsList rest n x) = _
    by_cases hp : p.1 = n
    · have h1 : ¬ ((n, x) : String × Int).1 = m := fun hm => hne hm.symm
      have h2 : ¬ p.1 = m := fun hm => hne (by rw [← hm]; exact hp)
      rw [if_pos hp, alookup, if_neg h1, alookup, if_neg h2]
      exact ih
    · rw [if_neg hp, alookup, alookup]
      by_cases hm : p.1 = m
      · rw [if_pos hm, if_pos hm]
      · rw [if_neg hm, if_neg hm]
        exact ih

theorem getVar_setVar_self (h : Heap) (id : ObjId) (n : String) (x : Int)
    (hs : (getVar h id n).isSome) :
    getVar (setVar h id n x) id n = some x := by
  unfold getVar varsOf at hs
  unfold getVar varsOf setVar
  rw [getElem?_updateObj, if_pos rfl]
  cases hx : h[id]? with
  | none =>
    rw [hx] at hs
    simp [alookup] at hs
  | some o =>
    rw [hx] at hs
    simp only [Option.map_some']
    cases o with
    | module a c vars => exact alookup_setVarsList_self vars n x hs
    | rawList es => simp [objVars, alookup] at hs
    | rawDict es => simp [objVars, alookup] at hs
    | rawTuple es => simp [objVars, alookup] at hs
    | listWrapper r sn na => simp [objVars, alookup] at hs
    | dictWrapper r sn na nsk => simp [objVars, alookup] at hs
    | tupleWrapper es => simp [objVars, alookup] at hs

theorem getVar_setVar_other (h : Heap) (id : ObjId) (n : String)
    (i2 : ObjId) (n2 : String) (x : Int) (hne : ¬ (i2 = id ∧ n2 = n)) :
    getVar (setVar h i2 n2 x) id n = getVar h id n := by
  unfold getVar varsOf setVar
  rw [getElem?_updateObj]
  by_cases hio : id = i2
  · subst hio
    have hnn : n ≠ n2 := fun he => hne ⟨rfl, he.symm⟩
    rw [if_pos rfl]
    cases hx : h[id]? with
    | none => rfl
    | some o =>
      simp only [Option.map_some']
      cases o with
      | module a c vars => exact alookup_setVarsList_ne vars n n2 x hnn
      | rawList es => rfl
      | rawDict es => rfl
      | rawTuple es => rfl
      | listWrapper r sn na => rfl
      | dictWrapper r sn na nsk => rfl
      | tupleWrapper es => rfl
  · rw [if_neg hio]

theorem getVar_setVar_isSome (h : Heap) (id : ObjId) (n : String)
    (i2 : ObjId) (n2 : String) (x : Int) (hs : (getVar h id n).isSome) :
    (getVar (setVar h i2 n2 x) id n).isSome := by
  by_cases hk : i2 = id ∧ n2 = n
  · obtain ⟨h1, h2⟩ := hk
    subst h1
    subst h2
    rw [getVar_setVar_self h i2 n2 x hs]
    rfl
  · rw [getVar_setVar_other h id n i2 n2 x hk]
    exact hs

theorem getVar_load_isSome (ckpt : Ckpt) (h : Heap) (id : ObjId) (n : String)
    (hs : (getVar h id n).isSome) :
    (getVar (load_weights h ckpt) id n).isSome := by
  induction ckpt generalizing h with
  | nil => exact hs
  | cons e rest ih =>
    show (getVar (load_weights (setVar h e.1 e.2.1 e.2.2) rest) id n).isSome
    exact ih _ (getVar_setVar_isSome h id n e.1 e.2.1 e.2.2 hs)

theorem getVar_load_noKey (ckpt : Ckpt) (h : Heap) (id : ObjId) (n : String)
    (hno : ∀ e ∈ ckpt, ¬ (e.1 = id ∧ e.2.1 = n)) :
    getVar (load_weights h ckpt) id n = getVar h id n := by
  induction ckpt generalizing h with
  | nil => rfl
  | cons e rest ih =>
    show getVar (load_weights (setVar h e.1 e.2.1 e.2.2) rest) id n = _
    rw [ih _ (fun e2 he2 => hno e2 (List.mem_cons_of_mem _ he2))]
    exact getVar_setVar_other h id n e.1 e.2.1 e.2.2 (hno e (List.mem_cons_self e rest))

theorem getElem?_mutateVarsAux (g : ObjId → String → Int) :
    ∀ (h : Heap) (k i : Nat),
      (mutateVarsAux g k h)[i]? = (h[i]?).map (objMutVars (g (k + i))) := by
  intro h
  induction h with
  | nil => intro k i; simp [mutateVarsAux]
  | cons o rest ih =>
    intro k i
    rw [show mutateVarsAux g k (o :: rest)
        = objMutVars (g k) o :: mutateVarsAux g (k+1) rest from rfl]
    cases i with
    | zero =>
      rw [List.getElem?_cons_zero, List.getElem?_cons_zero, Nat.add_zero]
      rfl
    | succ j =>
      rw [List.getElem?_cons_succ, List.getElem?_cons_succ, ih (k+1) j,
        Nat.add_assoc, Nat.add_comm 1 j]

theorem varsOf_mutateVars (g : ObjId → String → Int) (h : Heap) (id : ObjId) :
    varsOf (mutateVars g h) id = (varsOf h id).map (fun p => (p.1, g id p.1)) := by
  unfold varsOf mutateVars
  rw [getElem?_mutateVarsAux g h 0 id]
  cases hx : h[id]? with
  | none => rfl
  | some o =>
    simp only [Option.map_some']
    show objVars (objMutVars (g (0 + id)) o) = _
    rw [Nat.zero_add]
    cases o <;> rfl

theorem alookup_map_keys {β γ : Type} (n : String) (f : String → γ)
    (vs : List (String × β)) :
    alookup n (vs.map (fun p => (p.1, f p.1)))
      = (alookup n vs).map (fun _ => f n) := by
  induction vs with
  | nil => rfl
  | cons p rest ih =>
    show alookup n ((p.1, f p.1) :: _) = _
    rw [alookup, alookup]
    by_cases hp : p.1 = n
    · rw [if_pos hp, if_pos hp, hp]
      rfl
    · rw [if_neg hp, if_neg hp]
      exact ih

theorem getVar_mutateVars (g : ObjId → String → Int) (h : Heap) (id : ObjId)
    (n : String) :
    getVar (mutateVars g h) id n = (getVar h id n).map (fun _ => g id n) := by
  unfold getVar
  rw [varsOf_mutateVars, alookup_map_keys]

theorem mem_of_alookup_eq_some {α β : Type} [DecidableEq α] {k : α} {v : β} :
    ∀ {l : List (α × β)}, alookup k l = some v → (k, v) ∈ l := by
  intro l
  induction l with
  | nil => intro hh; exact Option.noConfusion hh
  | cons p rest ih =>
    intro hh
    rw [alookup] at hh
    by_cases hp : p.1 = k
    · rw [if_pos hp] at hh
      obtain ⟨a, b⟩ := p
      obtain rfl : a = k := hp
      obtain rfl : b = v := Option.some.inj hh
      exact List.mem_cons_self _ _
    · rw [if_neg hp] at hh
      exact List.mem_cons_of_mem _ (ih hh)

/-- Every object whose stored var-name list is duplicate-free yields a
well-formed heap. -/
theorem varsNodup_of_mem (h : Heap)
    (hf : ∀ o ∈ h, ((objVars o).map Prod.fst).Nodup) : VarsNodup h := by
  intro i
  unfold varsOf
  cases hx : h[i]? with
  | none => simp
  | some o =>
    have hm : o ∈ h := by
      have hlt : i < h.length := by
        by_contra hc
        rw [List.getElem?_eq_none (Nat.le_of_not_lt hc)] at hx
        exact Option.noConfusion hx
      have : h[i] = o := by
        have := List.getElem?_eq_getElem hlt
        rw [hx] at this
        exact (Option.some.inj this).symm
      rw [← this]
      exact List.getElem_mem hlt
    exact hf o hm

theorem load_weights_append (h : Heap) (l1 l2 : Ckpt) :
    load_weights h (l1 ++ l2) = load_weights (load_weights h l1) l2 := by
  unfold load_weights
  rw [List.foldl_append]

/-- **C4**: round-trip — if `save_weights` succeeded on a graph (of any
shape: list-, mapping-, or tuple-wrapped layers), then for every variable
(owner id, name) reachable from the root, mutating all variables'
values and then loading the checkpoint restores the exact pre-save
value. -/
theorem save_load_roundtrip (h : Heap) (root : ObjId)
    (g : ObjId → String → Int) (ckpt : Ckpt) (hwf : VarsNodup h)
    (hs : save_weights h root = .ok ckpt) (id : ObjId)
    (hid : id ∈ list_objects h root) (n : String) (v : Int)
    (hv : getVar h id n = some v) :
    getVar (load_weights (mutateVars g h) ckpt) id n = some v := by
  have hck : ckpt = ((list_objects h root).map (ckptEntries h)).flatten := by
    unfold save_weights at hs
    cases hfind : (list_objects h root).findSome? (validateWrapper h) with
    | some e =>
      rw [hfind] at hs
      exact Except.noConfusion hs
    | none =>
      rw [hfind] at hs
      exact (Except.ok.inj hs).symm
  obtain ⟨o1, o2, ho⟩ := List.append_of_mem hid
  have hnd := list_objects_nodup h root
  rw [ho] at hnd
  have hid2 : id ∉ o2 := (List.nodup_cons.mp hnd.of_append_right).1
  have hvmem : (n, v) ∈ varsOf h id := mem_of_alookup_eq_some hv
  obtain ⟨vs1, vs2, hvs⟩ := List.append_of_mem hvmem
  have hkn := hwf id
  rw [hvs, List.map_append, List.map_cons] at hkn
  have hn2 : n ∉ vs2.map Prod.fst := (List.nodup_cons.mp hkn.of_append_right).1
  have hce : ckptEntries h id
      = vs1.map (fun p => (id, p.1, p.2))
        ++ (id, n, v) :: vs2.map (fun p => (id, p.1, p.2)) := by
    unfold ckptEntries
    rw [hvs, List.map_append, List.map_cons]
  rw [ho, List.map_append, List.map_cons, List.flatten_append,
    List.flatten_cons, hce] at hck
  have hck2 : ckpt
      = ((o1.map (ckptEntries h)).flatten ++ vs1.map (fun p => (id, p.1, p.2)))
        ++ (id, n, v)
          :: (vs2.map (fun p => (id, p.1, p.2)) ++ (o2.map (ckptEntries h)).flatten) := by
    rw [hck]
    simp [List.append_assoc]
  have hB : ∀ e ∈ vs2.map (fun p => (id, p.1, p.2))
      ++ (o2.map (ckptEntries h)).flatten, ¬ (e.1 = id ∧ e.2.1 = n) := by
    intro e he
    rcases List.mem_append.mp he with he | he
    · obtain ⟨p, hp, rfl⟩ := List.mem_map.mp he
      rintro ⟨_, h2⟩
      exact hn2 (h2 ▸ List.mem_map_of_mem Prod.fst hp)
    · obtain ⟨l, hl, hel⟩ := List.mem_flatten.mp he
      obtain ⟨j, hj, rfl⟩ := List.mem_map.mp hl
      obtain ⟨p, hp, rfl⟩ := List.mem_map.mp hel
      rintro ⟨h1, _⟩
      exact hid2 (h1 ▸ hj)
  rw [hck2, load_weights_append]
  have hsome : (getVar (load_weights (mutateVars g h)
      ((o1.map (ckptEntries h)).flatten
        ++ vs1.map (fun p => (id, p.1, p.2)))) id n).isSome := by
    apply getVar_load_isSome
    rw [getVar_mutateVars, hv]
    rfl
  show getVar (load_weights (setVar _ id n v) _) id n = some v
  rw [getVar_load_noKey _ _ id n hB]
  exact getVar_setVar_self _ id n v hsome

/-! ### Scenario evaluations

Each scenario's construction sequence is first evaluated to an explicit
heap (by kernel reduction), then the walker's output on it is computed. -/

theorem extModHeap_eval : extModHeap =
    [ .module [("d", .ref 2)] [("d", 2)] [],
      .rawDict [(.str "a", .ref 3)],
      .dictWrapper 1 [] false false,
      .rawList [] ] := by rfl

theorem extModHeap_objs : list_objects extModHeap 0 = [0, 2] := by
  rw [extModHeap_eval]
  simp +decide [list_objects, bfsAux, childIds, trackableRefs, isTrackableVal,
    isTrackableObj]

theorem popHeap_eval : popHeap =
    [ .module [("d", .ref 2)] [("d", 2)] [],
      .rawDict [],
      .dictWrapper 1 [] true false,
      .rawList [],
      .listWrapper 3 [] false ] := by rfl

theorem popHeap_objs : list_objects popHeap 0 = [0, 2] := by
  rw [popHeap_eval]
  simp +decide [list_objects, bfsAux, childIds, trackableRefs, isTrackableVal,
    isTrackableObj]

theorem overwriteHeap_eval : overwriteHeap =
    [ .module [("d", .ref 2)] [("d", 2)] [],
      .rawDict [(.str "a", .ref 6)],
      .dictWrapper 1 [(.str "a", .ref 6)] false false,
      .rawDict [],
      .dictWrapper 3 [] false false,
      .rawDict [],
      .dictWrapper 5 [] false false ] := by rfl

theorem overwriteHeap_objs : list_objects overwriteHeap 0 = [0, 2, 6] := by
  rw [overwriteHeap_eval]
  simp +decide [list_objects, bfsAux, childIds, trackableRefs, isTrackableVal,
    isTrackableObj]

theorem overwritePopHeap_eval : overwritePopHeap =
    [ .module [("d", .ref 2)] [("d", 2)] [],
      .rawDict [],
      .dictWrapper 1 [] true false,
      .rawDict [],
      .dictWrapper 3 [] false false,
      .rawDict [],
      .dictWrapper 5 [] false false ] := by rfl

theorem overwritePopHeap_objs : list_objects overwritePopHeap 0 = [0, 2] := by
  rw [overwritePopHeap_eval]
  simp +decide [list_objects, bfsAux, childIds, trackableRefs, isTrackableVal,
    isTrackableObj]

theorem nonStringKeyOkHeap_eval : nonStringKeyOkHeap =
    [ .module [("d", .ref 2)] [("d", 2)] [],
      .rawDict [(.str "a", .ref 4), (.int 1, .ref 5)],
      .dictWrapper 1 [(.str "a", .ref 4), (.int 1, .ref 5)] false false,
      .rawList [.scalar 3],
      .listWrapper 3 [.scalar 3] false,
      .rawList [.scalar 3] ] := by rfl

theorem nonStringKeyOkHeap_objs :
    list_objects nonStringKeyOkHeap 0 = [0, 2, 4] := by
  rw [nonStringKeyOkHeap_eval]
  simp +decide [list_objects, bfsAux, childIds, trackableRefs, isTrackableVal,
    isTrackableObj]

theorem badKeysHeap_eval : badKeysHeap =
    [ .module [("sub", .ref 1)] [("sub", 1)] [],
      .module [("d", .ref 3)] [("d", 3)] [],
      .rawDict [(.int 1, .ref 5)],
      .dictWrapper 2 [(.int 1, .ref 5)] false true,
      .rawList [],
      .listWrapper 4 [] false ] := by rfl

theorem badKeysHeap_objs : list_objects badKeysHeap 0 = [0, 1, 3] := by
  rw [badKeysHeap_eval]
  simp +decide [list_objects, bfsAux, childIds, trackableRefs, isTrackableVal,
    isTrackableObj]

theorem nonAppendHeap_eval : nonAppendHeap =
    [ .module [("d", .ref 2)] [("d", 2)] [],
      .rawDict [(.str "a", .ref 4), (.int 2, .ref 6)],
      .dictWrapper 1 [(.str "a", .ref 4), (.int 2, .ref 6)] false false,
      .rawList [.scalar 3],
      .listWrapper 3 [.scalar 3] false,
      .module [] [] [],
      .module [] [] [] ] := by rfl

theorem nonAppendHeap_objs : list_objects nonAppendHeap 0 = [0, 2, 4] := by
  rw [nonAppendHeap_eval]
  simp +decide [list_objects, bfsAux, childIds, trackableRefs, isTrackableVal,
    isTrackableObj]

theorem noDepListHeap1_objs : list_objects noDepListHeap1 0 = [0] := by
  rw [show noDepListHeap1 =
    [ .module [("l1", .ref 1)] [] [], .rawList [] ] from rfl]
  simp +decide [list_objects, bfsAux, childIds, trackableRefs, isTrackableVal,
    isTrackableObj]

theorem noDepListHeap2_eval : noDepListHeap2 =
    [ .module [("l1", .ref 1), ("l2", .ref 3)] [("l2", 3)] [],
      .rawList [],
      .rawList [.ref 4],
      .listWrapper 2 [.ref 4] true,
      .module [] [] [] ] := by rfl

theorem noDepListHeap2_objs : list_objects noDepListHeap2 0 = [0, 3, 4] := by
  rw [noDepListHeap2_eval]
  simp +decide [list_objects, bfsAux, childIds, trackableRefs, isTrackableVal,
    isTrackableObj]

theorem noDepHeap_eval : noDepHeap =
    [ .module [("hasdep", .ref 1), ("nodep", .ref 2), ("alist", .ref 3)]
        [("hasdep", 1)] [],
      .module [] [] [],
      .module [] [] [],
      .rawList [] ] := by rfl

theorem noDepHeap_objs : list_objects noDepHeap 0 = [0, 1] := by
  rw [noDepHeap_eval]
  simp +decide [list_objects, bfsAux, childIds, trackableRefs, isTrackableVal,
    isTrackableObj]

theorem noAutoTrackHeap_objs : list_objects noAutoTrackHeap 0 = [0] := by
  rw [show noAutoTrackHeap =
    [ .module [("a", .ref 1), ("b", .ref 2)] [] [],
      .rawList [],
      .module [] [] [] ] from rfl]
  simp +decide [list_objects, bfsAux, childIds, trackableRefs, isTrackableVal,
    isTrackableObj]

theorem rtHeap_eval : rtHeap =
    [ .module [("layer_dict", .ref 2)] [("layer_dict", 2)] [],
      .rawDict [(.str "output", .ref 3)],
      .dictWrapper 1 [(.str "output", .ref 3)] false false,
      .module [("units", .scalar 7)] [] [("kernel", 5), ("bias", 1)] ] := by rfl

theorem rtHeap_objs : list_objects rtHeap 0 = [0, 2, 3] := by
  rw [rtHeap_eval]
  simp +decide [list_objects, bfsAux, childIds, trackableRefs, isTrackableVal,
    isTrackableObj]

/-! ### The claims -/

/-- **C1**: mutating the raw underlying container through a reference
retained from before wrapping (bypassing the wrapper, here assigning a new
key into the raw dict) makes the next `save_weights` fail with the
ValueError-class structural-mutation error whose message contains
"modified outside the wrapper"; the result is an `Except.error`, so no
checkpoint is produced. -/
theorem external_modification_blocks_save :
    save_weights extModHeap 0 = .error .structuralMutation
    ∧ SaveError.structuralMutation.errClass = .valueError
    ∧ msgContains SaveError.structuralMutation.message
        "modified outside the wrapper" := by
  refine ⟨?_, rfl, by decide⟩
  rw [save_weights, extModHeap_objs]
  rfl

/-- **C2**: the `HasList` wrapper built by wrap-then-append / extend / `+=`
reports all 10 Dense layers in insertion order with units `3 + i` at index
`i`, and `list_children` of the owner exposes exactly one named child per
container attribute — the wrapper object itself, which is also the stored
attribute value. -/
theorem has_list_layers_and_children :
    (layers hasListHeap 3).map (unitsOf hasListHeap)
      = [some (.scalar 3), some (.scalar 4), some (.scalar 5),
         some (.scalar 6), some (.scalar 7), some (.scalar 8),
         some (.scalar 9), some (.scalar 10), some (.scalar 11),
         some (.scalar 12)]
    ∧ (layers hasListHeap 3).length = 10
    ∧ list_children hasListHeap 0
        = [("layer_list", 3), ("layers_with_updates", 21)]
    ∧ getAttr hasListHeap 0 "layer_list" = some (.ref 3)
    ∧ getAttr hasListHeap 0 "layers_with_updates" = some (.ref 21) := by
  refine ⟨by decide, by decide, by decide, by decide, by decide⟩

/-- **C3**: every Trackable reachable from a root appears in
`list_objects` of that root, the listing never repeats an object (so an
object reachable along two attribute paths is listed exactly once), and
for a root with one mapping child holding one tracked list the result is
exactly `[root, wrapper, list]` in first-visit order. -/
theorem list_objects_dedup :
    (∀ (h : Heap) (root c : ObjId), Reaches h root c → c ∈ list_objects h root)
    ∧ (∀ (h : Heap) (root : ObjId), (list_objects h root).Nodup)
    ∧ (∀ (h : Heap) (root c : ObjId), c ∈ list_objects h root →
        (list_objects h root).count c = 1)
    ∧ list_objects nonStringKeyOkHeap 0 = [0, 2, 4] := by
  refine ⟨list_objects_complete, list_objects_nodup, ?_, nonStringKeyOkHeap_objs⟩
  intro h root c hc
  exact List.count_eq_one_of_mem (list_objects_nodup h root) hc

/-- Witness for C3 at the concrete graph: the dict wrapper (id 2) is
reachable from the root in one step and is listed exactly once. -/
theorem list_objects_dedup_witness :
    (list_objects nonStringKeyOkHeap 0).count 2 = 1 := by
  have hmem : 2 ∈ list_objects nonStringKeyOkHeap 0 :=
    list_objects_dedup.1 nonStringKeyOkHeap 0 2
      (Reaches.step Reaches.refl (by rw [nonStringKeyOkHeap_eval]; decide))
  exact list_objects_dedup.2.2.1 nonStringKeyOkHeap 0 2 hmem

/-- Witness for C4: the `HasMapping`-style graph with `kernel = 5`,
`bias = 1`; save, zero out every variable, restore — `kernel` reads 5
again. -/
theorem save_load_roundtrip_witness :
    getVar (load_weights (mutateVars (fun _ _ => 0) rtHeap)
      [(3, "kernel", 5), (3, "bias", 1)]) 3 "kernel" = some 5 := by
  have hs : save_weights rtHeap 0 = .ok [(3, "kernel", 5), (3, "bias", 1)] := by
    rw [save_weights, rtHeap_objs]
    rfl
  have hid : (3 : ObjId) ∈ list_objects rtHeap 0 := by
    rw [rtHeap_objs]
    decide
  exact save_load_roundtrip rtHeap 0 (fun _ _ => 0)
    [(3, "kernel", 5), (3, "bias", 1)]
    (varsNodup_of_mem rtHeap (by rw [rtHeap_eval]; decide)) hs 3 hid "kernel" 5
    (by rw [rtHeap_eval]; rfl)

/-- **C5**: a trackable value assigned under an integer key is stored
(readable through the wrapper, so nothing failed at assignment time), and
the failure is deferred to save time: `save_weights` returns the
ValueError-class non-string-key error whose message mentions "non-string
key". A non-string key holding a `NoDependency`-marked value does not
trigger the error: that save succeeds. -/
theorem non_string_key_deferred_to_save :
    dictGet badKeysHeap 3 (.int 1) = some (.ref 5)
    ∧ save_weights badKeysHeap 0 = .error .nonStringKey
    ∧ SaveError.nonStringKey.errClass = .valueError
    ∧ msgContains SaveError.nonStringKey.message "non-string key"
    ∧ save_weights nonStringKeyOkHeap 0 = .ok [] := by
  refine ⟨by decide, ?_, rfl, by decide, ?_⟩
  · rw [save_weights, badKeysHeap_objs]
    rfl
  · rw [save_weights, nonStringKeyOkHeap_objs]
    rfl

/-- **C6**: popping a tracked element from a mapping wrapper reachable
from the model makes the next `save_weights` fail with a ValueError-class
error whose message contains "Unable to save"; the result is an
`Except.error`, so the save aborts before any checkpoint data exists. -/
theorem pop_blocks_save :
    save_weights popHeap 0 = .error .unableToSave
    ∧ SaveError.unableToSave.errClass = .valueError
    ∧ msgContains SaveError.unableToSave.message "Unable to save" := by
  refine ⟨?_, rfl, by decide⟩
  rw [save_weights, popHeap_objs]
  rfl

/-- **C7**: after a checkpoint has been saved, inserting a Trackable into
a tracked list at a position inconsistent with the saved structure makes
the next save fail with the ValueError-class error whose message contains
"A list element was replaced". -/
theorem list_replacement_blocks_save :
    save_weights noDepListHeap1 0 = .ok []
    ∧ save_weights noDepListHeap2 0 = .error .listReplaced
    ∧ SaveError.listReplaced.errClass = .valueError
    ∧ msgContains SaveError.listReplaced.message
        "A list element was replaced" := by
  refine ⟨?_, ?_, rfl, by decide⟩
  · rw [save_weights, noDepListHeap1_objs]
    rfl
  · rw [save_weights, noDepListHeap2_objs]
    rfl

/-- **C8**: non-append mutations of untracked elements through the
wrapper are permitted freely — the overwritten value reads back through
the wrapper, the final no-dependency overwrite preserves identity,
`list_objects` is unaffected by the untracked entries, and the subsequent
`save_weights` succeeds. -/
theorem non_append_untracked_mutations_ok :
    dictGet nonAppendHeapMid 2 (.int 1) = some (.scalar 2)
    ∧ dictGet nonAppendHeap 2 (.int 2) = some (.ref 6)
    ∧ list_objects nonAppendHeap 0 = [0, 2, 4]
    ∧ save_weights nonAppendHeap 0 = .ok [] := by
  refine ⟨by decide, by decide, nonAppendHeap_objs, ?_⟩
  rw [save_weights, nonAppendHeap_objs]
  rfl

/-- **C9**: a `NoDependency`-marked assignment (and, identically, any
assignment made in the `no_automatic_dependency_tracking` mode) stores
the original unwrapped object, registers no child edge, and contributes
nothing to `list_objects`; concretely, `root.nodep` and the plain list
stay the original raw objects, `_trackable_children` lists only
`hasdep`, and the opt-out model's `list_objects` is just itself. -/
theorem no_dependency_invisible :
    (∀ (h : Heap) (ow : ObjId) (n : String) (v : Value) (root : ObjId),
        list_objects (setattr h ow n (.noDep v)) root = list_objects h root)
    ∧ (∀ (h : Heap) (ow : ObjId) (n : String) (v : Value) (i : ObjId),
        list_children (setattr h ow n (.noDep v)) i = list_children h i)
    ∧ (∀ (h : Heap) (ow : ObjId) (n : String) (v : Value)
        (attrs : List (String × Value)) (ch : List (String × ObjId))
        (vars : List (String × Int)),
        h[ow]? = some (.module attrs ch vars) →
        getAttr (setattr h ow n (.noDep v)) ow n = some v)
    ∧ (∀ (h : Heap) (ow : ObjId) (n : String) (v : Value),
        setattrUntracked h ow n v = setattr h ow n (.noDep v))
    ∧ list_children noDepHeap 0 = [("hasdep", 1)]
    ∧ getAttr noDepHeap 0 "nodep" = some (.ref 2)
    ∧ getAttr noDepHeap 0 "alist" = some (.ref 3)
    ∧ noDepHeap[3]? = some (.rawList [])
    ∧ list_objects noDepHeap 0 = [0, 1]
    ∧ list_objects noAutoTrackHeap 0 = [0]
    ∧ getAttr noAutoTrackHeap 0 "a" = some (.ref 1)
    ∧ noAutoTrackHeap[1]? = some (.rawList []) := by
  refine ⟨list_objects_setattrNoDep, list_children_setattrNoDep,
    ?_, fun h ow n v => rfl, by decide, by decide, by decide, by decide,
    noDepHeap_objs, noAutoTrackHeap_objs, by decide, by decide⟩
  intro h ow n v attrs ch vars ho
  exact getAttr_setattrNoDep h ow n v attrs ch vars ho

/-- Witness for C9's module-lookup hypothesis: a one-module heap where
the opt-out assignment stores the scalar unchanged. -/
theorem no_dependency_invisible_witness :
    getAttr (setattr [Obj.module [] [] []] 0 "x" (.noDep (.scalar 7))) 0 "x"
      = some (.scalar 7) :=
  no_dependency_invisible.2.2.1 [Obj.module [] [] []] 0 "x" (.scalar 7)
    [] [] [] (by rfl)

/-- **C10**: overwriting a tracked mapping key with a new trackable value
through the wrapper's own interface is not flagged — the save succeeds —
whereas popping the same tracked key instead blocks the save. -/
theorem overwrite_still_saves :
    save_weights overwriteHeap 0 = .ok []
    ∧ save_weights overwritePopHeap 0 = .error .unableToSave := by
  constructor
  · rw [save_weights, overwriteHeap_objs]
    rfl
  · rw [save_weights, overwritePopHeap_objs]
    rfl

end Tracking
